import Mathlib

/-!
Verification development for the uncork prefix-capture core
(src/uncork: registry.py, capture.py, analysis.py, cli.py, spec.py).

Python strings are embedded as lists of characters (`Str`). Python's
left-to-right, non-overlapping scan functions (`re.sub` on the literal
patterns used by the code, `str.replace`, `fnmatch`) are embedded as
structurally recursive scanners; where a scanner consumes a varying number
of characters per step, a fuel argument initialised to a provably
sufficient bound (every step consumes at least one input character, so the
input length suffices) keeps the recursion structural and kernel-reducible.
Case folding models Python's `str.lower` / `re.IGNORECASE` on the ASCII
texts the code manipulates.
-/

/-- Python strings, embedded as lists of characters. -/
abbrev Str := List Char

/-- Character list of a Lean string literal. -/
def ofStr (s : String) : Str := s.data

/-- Python `str.lower()` (ASCII case folding, character-wise). -/
def lowerStr (s : Str) : Str := s.map Char.toLower

/-- Character comparison, optionally case-insensitive (`re.IGNORECASE`). -/
def chEq (ci : Bool) (a b : Char) : Bool :=
  if ci then a.toLower == b.toLower else a == b

/-- Does `s` start with the literal pattern `pat`
(case-insensitively when `ci` is true)? -/
def matchesLit (ci : Bool) : Str → Str → Bool
  | [], _ => true
  | _ :: _, [] => false
  | p :: ps, c :: cs => chEq ci p c && matchesLit ci ps cs

/-!
## registry.py — RegistryProcessor

`_tokenize_content` applies five `re.sub` calls in sequence.  Each pattern
is the raw f-string `rf'(PRE){re.escape(user)}\\b'` (or, for the Unix rule,
`rf'/home/{re.escape(user)}\\b'`).  In a raw string `\\b` is the two
characters backslash-backslash followed by `b`, which the regex engine
reads as a literal backslash followed by the letter `b` — NOT a word
boundary.  So each rule replaces an occurrence of
`PRE ++ user ++ "\b"` (the trailing backslash-`b` included in the match and
therefore deleted) by the matched prefix text followed by the token.
The first four rules carry `re.IGNORECASE`; the `/home/` rule does not.
-/

/-- One `re.sub` pass for a pattern of the shape `(pre)user\\b` with
replacement `\1token`: scan left to right, non-overlapping; on a match the
matched prefix text (group 1, with its original casing) is kept, the
username and the literal backslash-`b` are replaced by the token.
Fuel is initialised to the input length; every step consumes at least one
character, so the zero-fuel branch is never reached from `subUserRule`. -/
def subGo (ci : Bool) (pre user token : Str) : Nat → Str → Str
  | _, [] => []
  | 0, s => s
  | fuel + 1, c :: cs =>
      let pat : Str := pre ++ user ++ ['\\', 'b']
      if matchesLit ci pat (c :: cs) then
        List.take pre.length (c :: cs) ++ token
          ++ subGo ci pre user token fuel (List.drop pat.length (c :: cs))
      else
        c :: subGo ci pre user token fuel cs

/-- One username-rewriting rule of `_tokenize_content`. -/
def subUserRule (ci : Bool) (pre user token : Str) (s : Str) : Str :=
  subGo ci pre user token s.length s

/-- The `RegistryProcessor` class of registry.py (its two token fields). -/
structure RegistryProcessor where
  user_token : Str
  home_token : Str

/-- A `RegistryProcessor()` with the default tokens (also the tokens
`PrefixCapture` passes: `USER_TOKEN`, `HOME_TOKEN`). -/
def defaultProcessor : RegistryProcessor :=
  { user_token := ofStr "__WINE_USER__", home_token := ofStr "__USER_HOME__" }

/-- Embeds `RegistryProcessor._tokenize_content`: the five `re.sub` rules
applied in source order (escaped C:, single-backslash C:, escaped Z:,
single-backslash Z:, Unix `/home/`); the first four case-insensitive, the
last case-sensitive.  All five substitute `user_token` (the `/home/` rule's
replacement `f'/home/{user_token}'` coincides with keeping the matched
prefix, which for that case-sensitive rule is exactly `/home/`). -/
def RegistryProcessor.tokenizeContent (rp : RegistryProcessor)
    (content original_user : Str) : Str :=
  let c1 := subUserRule true (ofStr "C:\\\\users\\\\") original_user rp.user_token content
  let c2 := subUserRule true (ofStr "C:\\users\\") original_user rp.user_token c1
  let c3 := subUserRule true (ofStr "Z:\\\\home\\\\") original_user rp.user_token c2
  let c4 := subUserRule true (ofStr "Z:\\home\\") original_user rp.user_token c3
  subUserRule false (ofStr "/home/") original_user rp.user_token c4

/-- Python `str.replace(pat, rep)`: left-to-right, non-overlapping
replacement of every occurrence.  Fuel as in `subGo`. -/
def replaceGo (pat rep : Str) : Nat → Str → Str
  | _, [] => if pat.isEmpty then rep else []
  | 0, s => s
  | fuel + 1, c :: cs =>
      if pat.isEmpty then rep ++ c :: replaceGo pat rep fuel cs
      else if pat.isPrefixOf (c :: cs) then
        rep ++ replaceGo pat rep fuel (List.drop pat.length (c :: cs))
      else c :: replaceGo pat rep fuel cs

/-- Python `s.replace(pat, rep)`. -/
def pyReplace (s pat rep : Str) : Str := replaceGo pat rep s.length s

/-- Embeds `RegistryProcessor.detokenize_content`: literal replacement of
`user_token` by the actual user, then of `home_token` by the actual home. -/
def RegistryProcessor.detokenizeContent (rp : RegistryProcessor)
    (content actual_user actual_home : Str) : Str :=
  pyReplace (pyReplace content rp.user_token actual_user) rp.home_token actual_home

/-- C1: the tokenizer is claimed to replace the username exactly when it
follows one of the fixed path prefixes as a whole path segment (end of
string or followed by a path separator).  In the code the trailing `\\b`
of each raw-string pattern is a literal backslash plus letter `b`, not a
word boundary: a username followed by a path separator (single- or
double-backslash form) or ending the string is left untouched, and the one
shape that does fire (username followed by the two characters `\b`)
deletes those characters.  Evaluated at the failing inputs. -/
theorem c1_tokenize_literal_backslash_b :
    RegistryProcessor.tokenizeContent defaultProcessor
        (ofStr "C:\\users\\alice\\Desktop") (ofStr "alice")
      = ofStr "C:\\users\\alice\\Desktop"
  ∧ RegistryProcessor.tokenizeContent defaultProcessor
        (ofStr "C:\\\\users\\\\alice\\\\Desktop") (ofStr "alice")
      = ofStr "C:\\\\users\\\\alice\\\\Desktop"
  ∧ RegistryProcessor.tokenizeContent defaultProcessor
        (ofStr "C:\\users\\alice") (ofStr "alice")
      = ofStr "C:\\users\\alice"
  ∧ RegistryProcessor.tokenizeContent defaultProcessor
        (ofStr "C:\\users\\alice\\baz") (ofStr "alice")
      = ofStr "C:\\users\\__WINE_USER__az" := by decide

/-- C3: tokenize-then-detokenize is claimed to round-trip for any text
containing occurrences of the username in the recognized path forms.  On
the input `C:\users\alice\bin` (username `alice` as a whole path segment
after the single-backslash C: prefix) tokenization consumes the literal
`\b` of `\bin`, so detokenization yields `C:\users\alicein`, not the
original text. -/
theorem c3_roundtrip_fails_on_matching_occurrence :
    RegistryProcessor.tokenizeContent defaultProcessor
        (ofStr "C:\\users\\alice\\bin") (ofStr "alice")
      = ofStr "C:\\users\\__WINE_USER__in"
  ∧ RegistryProcessor.detokenizeContent defaultProcessor
      (RegistryProcessor.tokenizeContent defaultProcessor
        (ofStr "C:\\users\\alice\\bin") (ofStr "alice"))
      (ofStr "alice") (ofStr "/home/alice")
      = ofStr "C:\\users\\alicein"
  ∧ ofStr "C:\\users\\alicein" ≠ ofStr "C:\\users\\alice\\bin" := by decide

/-!
## spec.py — package specification models (pydantic)

Field-for-field embeddings of the pydantic models, with their declared
defaults reproduced where the embedding needs them.
-/

/-- The `WineMode` string enum. -/
inductive WineMode
  | system
  | bundled
  deriving DecidableEq

/-- The `Executable` model. -/
structure Executable where
  id : Str
  name : Str
  path : Str
  command : Option Str
  args : Str
  working_dir : Option Str
  icon : Option Str
  description : Option Str
  wm_class : Option Str
  create_desktop_entry : Bool
  categories : List Str
  deriving DecidableEq

/-- The `WineConfig` model. -/
structure WineConfig where
  mode : WineMode
  system_min_version : Option Str
  bundled_path : Option Str
  deriving DecidableEq

/-- The `PrefixMetadata` model. -/
structure PrefixMetadata where
  original_user : Str
  original_path : Str
  normalized_user : Str
  original_wine_version : Option Str
  has_dxvk : Bool
  has_vkd3d : Bool
  arch : Str
  deriving DecidableEq

/-- The `InstallConfig` model. -/
structure InstallConfig where
  system_path : Str
  user_data_path : Str
  use_overlay : Bool
  deriving DecidableEq

/-- The `AppMetadata` model. -/
structure AppMetadata where
  name : Str
  display_name : Str
  version : Str
  description : Str
  maintainer : Option Str
  homepage : Option Str
  license : Str
  deriving DecidableEq

/-- The `PackageSpec` model. -/
structure PackageSpec where
  schema_version : Str
  app : AppMetadata
  wine : WineConfig
  prefix_ : PrefixMetadata
  executables : List Executable
  install : InstallConfig
  excluded_patterns : List Str
  deriving DecidableEq

/-!
## capture.py — PrefixCapture._handle_symlink
-/

/-- The three possible outcomes for a symlink during staged copy:
recreate it with a (possibly rewritten) target, or silently drop it. -/
inductive SymlinkAction
  | rewrite (target : Str)
  | drop
  | keep (target : Str)
  deriving DecidableEq

/-- Python substring containment (`pat in s`). -/
def containsSub (pat : Str) : Str → Bool
  | [] => pat.isEmpty
  | c :: cs => pat.isPrefixOf (c :: cs) || containsSub pat cs

/-- Python `target.startswith("/")`. -/
def startsWithSlash (t : Str) : Bool := (ofStr "/").isPrefixOf t

/-- Embeds `PrefixCapture._handle_symlink` as the pure classification it
performs: the filesystem effects (`os.symlink` / nothing) are summarised
by the returned `SymlinkAction`.  `rel_path` is `str(rel_path)`,
`link_name` is `src.name`, `target` is `os.readlink(src)`. -/
def PrefixCapture.handleSymlink (rel_path link_name target : Str) : SymlinkAction :=
  if containsSub (ofStr "dosdevices") rel_path then
    if link_name = ofStr "c:" then .rewrite (ofStr "../drive_c")
    else if link_name = ofStr "z:" then .drop
    else if startsWithSlash target then .drop
    else .keep target
  else if startsWithSlash target then .drop
  else .keep target

/-!
## cli.py / capture.py — identifier derivation and normalize
-/

/-- Characters kept by the derivation regex class `[a-z0-9]`. -/
def isSlugKeep (c : Char) : Bool :=
  ('a' ≤ c && c ≤ 'z') || ('0' ≤ c && c ≤ '9')

/-- Python `s.strip('-')`. -/
def trimDashes (s : Str) : Str :=
  ((s.dropWhile (fun c => c == '-')).reverse.dropWhile (fun c => c == '-')).reverse

/-- Embeds `re.sub(r'[^a-z0-9]', '-', name.lower()).strip('-')`
(cli.py executable-id generation; the same expression appears in
`PrefixCapture.normalize` for the default package name). -/
def slugify (name : Str) : Str :=
  trimDashes ((lowerStr name).map (fun c => if isSlugKeep c then c else '-'))

/-- Modelled from the spec's words (C5): "non-alphanumeric runs collapsed
to a single hyphen" — like `slugify` but squeezing consecutive hyphens. -/
def squeezeDashes : Str → Str
  | [] => []
  | [c] => [c]
  | a :: b :: rest =>
      if a == '-' && b == '-' then squeezeDashes (b :: rest)
      else a :: squeezeDashes (b :: rest)

/-- Modelled from the spec's words (C5): the claimed derivation with runs
of non-alphanumerics collapsed to one hyphen. -/
def slugifySpecCollapsed (name : Str) : Str :=
  trimDashes (squeezeDashes ((lowerStr name).map (fun c => if isSlugKeep c then c else '-')))

/-- Lookup in the `exe_id_counts` dict. -/
def lookupCount (k : Str) : List (Str × Nat) → Option Nat
  | [] => none
  | (a, n) :: rest => if a = k then some n else lookupCount k rest

/-- `exe_id_counts[base_id] += 1`. -/
def bumpCount (k : Str) : List (Str × Nat) → List (Str × Nat)
  | [] => []
  | (a, n) :: rest => if a = k then (a, n + 1) :: rest else (a, n) :: bumpCount k rest

/-- The duplicate-id loop of cli.py `capture`: derive `base_id` from each
display name, disambiguating repeats with `-{count}` suffixes. -/
def assignIdsGo (counts : List (Str × Nat)) : List Str → List Str
  | [] => []
  | name :: rest =>
      let base := slugify name
      match lookupCount base counts with
      | some k =>
          (base ++ '-' :: ofStr (Nat.repr (k + 1))) :: assignIdsGo (bumpCount base counts) rest
      | none => base :: assignIdsGo ((base, 0) :: counts) rest

/-- Identifier assignment for a list of display names, in order. -/
def assignIds (names : List Str) : List Str := assignIdsGo [] names

/-- The error cases raised by the capture layer (`CaptureError` messages,
plus the `ValueError` from `WineMode(mode)` on an unknown mode string). -/
inductive CaptureErrorKind
  | invalidPrefixStructure
  | noExecutables
  | invalidWineMode
  | bundledRequiresPath
  deriving DecidableEq

/-- `AppMetadata(name=..., display_name=...)` with pydantic defaults. -/
def defaultAppMetadata (n dn : Str) : AppMetadata :=
  { name := n, display_name := dn, version := ofStr "1.0.0",
    description := ofStr "A Windows application packaged for Linux",
    maintainer := none, homepage := none, license := ofStr "Proprietary" }

/-- Python truthiness of `bundled_wine_path`: `None` and `""` are falsy. -/
def pyFalsyOptStr : Option Str → Bool
  | none => true
  | some s => s.isEmpty

/-- The `str | WineMode` argument of `set_wine_mode`. -/
inductive WineModeArg
  | fromString (s : Str)
  | fromMode (m : WineMode)

/-- `WineMode(mode)` on a string: the enum lookup, `ValueError` otherwise. -/
def parseWineMode (s : Str) : Except CaptureErrorKind WineMode :=
  if s = ofStr "system" then .ok .system
  else if s = ofStr "bundled" then .ok .bundled
  else .error .invalidWineMode

/-- Resolve the `str | WineMode` union as the source's `isinstance` branch. -/
def resolveWineModeArg : WineModeArg → Except CaptureErrorKind WineMode
  | .fromString s => parseWineMode s
  | .fromMode m => .ok m

/-- Embeds `PrefixCapture.set_wine_mode`: the new `WineConfig` is stored
first, and only then is the bundled-mode-without-path error raised.  The
result is the `_wine_config` value after the call paired with the raised
error, if any (on a `ValueError` from the mode lookup the old config is
still in place). -/
def PrefixCapture.set_wine_mode (old : WineConfig) (mode : WineModeArg)
    (min_version bundled_wine_path : Option Str) : WineConfig × Option CaptureErrorKind :=
  match resolveWineModeArg mode with
  | .error e => (old, some e)
  | .ok m =>
    let cfg : WineConfig :=
      { mode := m, system_min_version := min_version, bundled_path := bundled_wine_path }
    if m = WineMode.bundled && pyFalsyOptStr bundled_wine_path then
      (cfg, some .bundledRequiresPath)
    else (cfg, none)

/-- `trimDashes` is `rdropWhile` after `dropWhile` (both on the dash test). -/
theorem trimDashes_eq (s : Str) :
    trimDashes s = List.rdropWhile (fun c => c == '-') (s.dropWhile (fun c => c == '-')) := rfl

/-- `slugify` unfolded through `trimDashes_eq`. -/
theorem slugify_eq (name : Str) :
    slugify name = List.rdropWhile (fun c => c == '-')
      (((lowerStr name).map (fun c => if isSlugKeep c then c else '-')).dropWhile
        (fun c => c == '-')) := rfl

/-- C2: the symlink-handling step is a total function on (location, link
name, target); the c: drive-mapping link is always rewritten to the
relative `../drive_c`, the z: link is always dropped, and every other link
(other drive letters and ordinary symlinks alike) is kept exactly when its
target is relative — in particular no kept or rewritten link ever has an
absolute target. -/
theorem c2_symlink_classification :
    ∀ rel name t : Str,
      (PrefixCapture.handleSymlink rel name t = .rewrite (ofStr "../drive_c")
        ∨ PrefixCapture.handleSymlink rel name t = .drop
        ∨ PrefixCapture.handleSymlink rel name t = .keep t)
    ∧ (∀ u, PrefixCapture.handleSymlink rel name t = .rewrite u → u = ofStr "../drive_c")
    ∧ (∀ u, PrefixCapture.handleSymlink rel name t = .keep u →
          u = t ∧ startsWithSlash u = false)
    ∧ (containsSub (ofStr "dosdevices") rel = true → name = ofStr "c:" →
          PrefixCapture.handleSymlink rel name t = .rewrite (ofStr "../drive_c"))
    ∧ (containsSub (ofStr "dosdevices") rel = true → name = ofStr "z:" →
          PrefixCapture.handleSymlink rel name t = .drop)
    ∧ (containsSub (ofStr "dosdevices") rel = true → name ≠ ofStr "c:" →
          name ≠ ofStr "z:" →
          (PrefixCapture.handleSymlink rel name t = .keep t ↔ startsWithSlash t = false))
    ∧ (containsSub (ofStr "dosdevices") rel = false →
          (PrefixCapture.handleSymlink rel name t = .keep t ↔ startsWithSlash t = false)) := by
  intro rel name t
  unfold PrefixCapture.handleSymlink
  split_ifs with h1 h2 h3 h4 h5 <;> simp_all <;> decide

/-- Witness for C2: the z: drive-mapping link pointing at the filesystem
root is dropped. -/
theorem c2_symlink_classification_witness :
    PrefixCapture.handleSymlink (ofStr "dosdevices/z:") (ofStr "z:") (ofStr "/")
      = SymlinkAction.drop :=
  (c2_symlink_classification (ofStr "dosdevices/z:") (ofStr "z:") (ofStr "/")).2.2.2.2.1
    (by decide) rfl

/-- C5 counterexample: the claim says every run of non-alphanumeric
characters collapses to a single hyphen, but the code replaces each such
character with its own hyphen: two consecutive spaces yield two hyphens. -/
theorem c5_counterexample_runs_not_collapsed :
    slugify (ofStr "a  b") = ofStr "a--b"
  ∧ slugifySpecCollapsed (ofStr "a  b") = ofStr "a-b"
  ∧ slugify (ofStr "a  b") ≠ slugifySpecCollapsed (ofStr "a  b") := by decide

/-- The head of a `dropWhile` result never satisfies the dropped test. -/
theorem dropWhile_head?_false (p : Char → Bool) :
    ∀ (l : Str) (c : Char), (l.dropWhile p).head? = some c → p c = false := by
  intro l
  induction l with
  | nil => intro c h; simp [List.dropWhile] at h
  | cons a as ih =>
      intro c h
      by_cases hp : p a
      · rw [List.dropWhile_cons, if_pos hp] at h
        exact ih c h
      · rw [List.dropWhile_cons, if_neg hp] at h
        simp only [List.head?_cons, Option.some.injEq] at h
        rw [← h]
        simpa using hp

/-- A nonempty prefix shares its head with the whole list. -/
theorem isPrefix_head?_some {l m : Str} {c : Char} (h : l <+: m)
    (hc : l.head? = some c) : m.head? = some c := by
  obtain ⟨t, rfl⟩ := h
  cases l with
  | nil => simp at hc
  | cons a as => simpa using hc

/-- The last element of an `rdropWhile` result never satisfies the test. -/
theorem rdropWhile_getLast?_false (p : Char → Bool) (l : Str) (c : Char)
    (h : (List.rdropWhile p l).getLast? = some c) : p c = false := by
  have hne : List.rdropWhile p l ≠ [] := by
    intro h0; rw [h0] at h; simp at h
  have hlast := List.rdropWhile_last_not p l hne
  have h2 : (List.rdropWhile p l).getLast hne = c := by
    have h3 := List.getLast?_eq_getLast_of_ne_nil hne
    rw [h3] at h
    exact Option.some.inj h
  rw [h2] at hlast
  simpa using hlast

/-- C5 (amended): derivation lowercases, replaces each non-alphanumeric
character with a hyphen (interior runs are kept, not collapsed), and trims
leading/trailing hyphens — "My Cool App!!" still yields `my-cool-app`
because its only runs are at the end — and duplicate identifiers get
numeric suffixes (`launcher`, `launcher-1`).  Every output character is a
lowercase alphanumeric or a hyphen, and the output never starts or ends
with a hyphen. -/
theorem c5_amended_derivation_and_disambiguation :
    slugify (ofStr "My Cool App!!") = ofStr "my-cool-app"
  ∧ assignIds [ofStr "Launcher", ofStr "Launcher"] = [ofStr "launcher", ofStr "launcher-1"]
  ∧ (∀ name : Str, ∀ c ∈ slugify name, isSlugKeep c = true ∨ c = '-')
  ∧ (∀ name : Str, (slugify name).head? ≠ some '-' ∧ (slugify name).getLast? ≠ some '-') := by
  refine ⟨by decide, by decide, ?_, ?_⟩
  · intro name c hc
    rw [slugify_eq] at hc
    have h1 : c ∈ (lowerStr name).map (fun c => if isSlugKeep c then c else '-') :=
      (List.dropWhile_suffix _).sublist.mem
        ((List.rdropWhile_prefix _ _).sublist.mem hc)
    rcases List.mem_map.mp h1 with ⟨a, _, ha⟩
    by_cases hk : isSlugKeep a
    · left; rw [← ha]; simp [hk]
    · right; rw [← ha]; simp [hk]
  · intro name
    rw [slugify_eq]
    constructor
    · intro hhead
      have hy : (((lowerStr name).map (fun c => if isSlugKeep c then c else '-')).dropWhile
          (fun c => c == '-')).head? = some '-' :=
        isPrefix_head?_some (List.rdropWhile_prefix _ _) hhead
      have := dropWhile_head?_false (fun c => c == '-') _ _ hy
      simp at this
    · intro hlast
      have := rdropWhile_getLast?_false (fun c => c == '-') _ _ hlast
      simp at this

/-- Witness for C5 (amended) at a concrete character of a concrete
derived identifier. -/
theorem c5_amended_derivation_witness :
    'x' ∈ slugify (ofStr "x!y") ∧ (isSlugKeep 'x' = true ∨ 'x' = '-') :=
  ⟨by decide, c5_amended_derivation_and_disambiguation.2.2.1 (ofStr "x!y") 'x' (by decide)⟩

/-- A concrete executable entry for witnesses. -/
def demoExecutable : Executable :=
  { id := ofStr "game", name := ofStr "Game", path := ofStr "drive_c/Games/game.exe",
    command := none, args := [], working_dir := some (ofStr "drive_c/Games"),
    icon := none, description := none, wm_class := none,
    create_desktop_entry := true, categories := [ofStr "Application"] }

/-- C10: calling `set_wine_mode` with mode string "bundled" and no bundled
path raises, but the stored wine configuration has already been replaced
by one with mode `bundled` and `bundled_path = None` — the operation is
not atomic. -/
theorem c10_set_wine_mode_not_atomic :
    ∀ (old : WineConfig) (mv : Option Str),
      PrefixCapture.set_wine_mode old (.fromString (ofStr "bundled")) mv none
        = ({ mode := WineMode.bundled, system_min_version := mv, bundled_path := none },
           some CaptureErrorKind.bundledRequiresPath) := by
  intro old mv
  rfl

/-!
## capture.py — exclusion filter (`should_exclude` over `fnmatch.fnmatch`)

`fnmatch` on POSIX performs no case normalization; its translated regex is
anchored at both ends, `*` matches any run of characters (including `/`),
`?` any single character, and `[...]` a character class (leading `!`
negates; a `]` right after `[` or `[!` is literal; an unterminated `[` is
a literal `[`).
-/

/-- An element of a `[...]` character class: a single character or a
range. -/
inductive ClassItem
  | single (c : Char)
  | range (a b : Char)

/-- Class-item membership (an inverted range matches nothing, as in the
`fnmatch.translate` of current Python, which removes empty ranges). -/
def inClassItem (c : Char) : ClassItem → Bool
  | .single a => a == c
  | .range a b => decide (a ≤ c) && decide (c ≤ b)

/-- Items of a class body (`a-z` makes a range; a trailing `-` is
literal). -/
def classItems : Str → List ClassItem
  | [] => []
  | a :: '-' :: b :: rest => .range a b :: classItems rest
  | a :: rest => .single a :: classItems rest

/-- Scan for the closing `]`, returning the body before it and the rest
after it. -/
def findCloseAux : Str → Option (Str × Str)
  | [] => none
  | ']' :: r => some ([], r)
  | c :: r => (findCloseAux r).map (fun q => (c :: q.1, q.2))

/-- Parse a class after an opening `[`: optional leading `!` negation, a
`]` directly after `[` or `[!` belongs to the body, then everything up to
the closing `]`.  `none` when unterminated (the `[` is then literal). -/
def parseClass (ps : Str) : Option (Bool × Str × Str) :=
  match ps with
  | '!' :: t =>
      (match t with
       | ']' :: t2 => (findCloseAux t2).map (fun q => (true, ']' :: q.1, q.2))
       | _ => (findCloseAux t).map (fun q => (true, q.1, q.2)))
  | ']' :: t2 => (findCloseAux t2).map (fun q => (false, ']' :: q.1, q.2))
  | _ => (findCloseAux ps).map (fun q => (false, q.1, q.2))

/-- Does character `c` match the class with body `content` (negated when
`neg`)? -/
def matchClass (neg : Bool) (content : Str) (c : Char) : Bool :=
  ((classItems content).any (inClassItem c)) != neg

/-- The anchored glob matcher behind `fnmatch.fnmatch`.  Fuel decreases by
one per step while `pat.length + s.length` also strictly decreases, so the
initial fuel `pat.length + s.length + 1` is never exhausted; the zero-fuel
branch is unreachable from `fnmatch`. -/
def fnmatchGo : Nat → Str → Str → Bool
  | _, [], s => s.isEmpty
  | 0, _ :: _, _ => false
  | fuel + 1, '*' :: ps, s =>
      fnmatchGo fuel ps s ||
        (match s with
         | [] => false
         | _ :: cs => fnmatchGo fuel ('*' :: ps) cs)
  | fuel + 1, '?' :: ps, s =>
      (match s with
       | [] => false
       | _ :: cs => fnmatchGo fuel ps cs)
  | fuel + 1, '[' :: ps, s =>
      (match parseClass ps with
       | some (neg, content, rest) =>
           (match s with
            | [] => false
            | c :: cs => matchClass neg content c && fnmatchGo fuel rest cs)
       | none =>
           (match s with
            | [] => false
            | c :: cs => (c == '[') && fnmatchGo fuel ps cs))
  | fuel + 1, p :: ps, s =>
      (match s with
       | [] => false
       | c :: cs => (p == c) && fnmatchGo fuel ps cs)

/-- `fnmatch.fnmatch(name, pat)` on POSIX. -/
def fnmatch (name pat : Str) : Bool :=
  fnmatchGo (pat.length + name.length + 1) pat name

/-- The `DEFAULT_EXCLUSIONS` pattern list of `PrefixCapture`. -/
def DEFAULT_EXCLUSIONS : List Str :=
  [ofStr "*.dxvk-cache", ofStr "*.log", ofStr "*.tmp",
   ofStr "mesa_shader_cache/**", ofStr "nvidiav1/**", ofStr "GLCache/**",
   ofStr "drive_c/users/*/Temp/**", ofStr "drive_c/users/*/Local Settings/Temp/**",
   ofStr "drive_c/windows/temp/**", ofStr "drive_c/windows/Temp/**",
   ofStr ".update-timestamp"]

/-- Embeds the `should_exclude` closure of `PrefixCapture._copy_prefix`:
every pattern is tried against the relative path as given and against the
path with backslashes replaced by forward slashes. -/
def PrefixCapture.shouldExclude (exclusions : List Str) (rel_path : Str) : Bool :=
  exclusions.any (fun pat =>
    fnmatch rel_path pat
      || fnmatch (rel_path.map (fun c => if c == '\\' then '/' else c)) pat)

/-- C8 counterexample: the claim's "vice versa" direction fails — a
pattern written with backslash separators does not match the equivalent
path written with forward slashes (only paths are normalized, never
patterns): `a/b` is not excluded under pattern `a\b`, though the
equivalent backslash path `a\b` is. -/
theorem c8_counterexample_backslash_pattern :
    PrefixCapture.shouldExclude [ofStr "a\\b"] (ofStr "a\\b") = true
  ∧ PrefixCapture.shouldExclude [ofStr "a\\b"] (ofStr "a/b") = false := by decide

/-- C8 (amended): a path is excluded exactly when its given form or its
forward-slash normalization matches some pattern; consequently separator
invariance holds in the pattern-with-forward-slashes direction: a
backslash-free path that matches some pattern is still excluded when
written with native backslash separators.  (The converse direction fails
for patterns written with backslashes; see the counterexample.) -/
theorem c8_amended_separator_invariance :
    (∀ (exclusions : List Str) (rel : Str),
        PrefixCapture.shouldExclude exclusions rel
          = exclusions.any (fun pat =>
              fnmatch rel pat
                || fnmatch (rel.map (fun c => if c == '\\' then '/' else c)) pat))
    ∧ (∀ (p : Str) (pats : List Str),
        (∀ c ∈ p, c ≠ '\\') →
        pats.any (fun pat => fnmatch p pat) = true →
        PrefixCapture.shouldExclude pats
          (p.map (fun c => if c == '/' then '\\' else c)) = true) := by
  constructor
  · intro ex rel; rfl
  · intro p pats hnb hm
    have hnorm : (p.map (fun c => if c == '/' then '\\' else c)).map
        (fun c => if c == '\\' then '/' else c) = p := by
      rw [List.map_map]
      have hcong : ∀ c ∈ p, ((fun c => if c == '\\' then '/' else c) ∘
          (fun c => if c == '/' then '\\' else c)) c = c := by
        intro c hc
        by_cases h : c = '/'
        · simp [h]
        · have hb := hnb c hc
          simp [Function.comp, h, hb]
      rw [List.map_congr_left hcong]
      simp
    unfold PrefixCapture.shouldExclude
    rw [hnorm, List.any_eq_true] at *
    obtain ⟨pat, hpat, hf⟩ := hm
    exact ⟨pat, hpat, by rw [hf, Bool.or_true]⟩

/-- Witness for C8 (amended): the forward-slash pattern `a/*` excludes the
native-backslash path `a\b`. -/
theorem c8_amended_separator_invariance_witness :
    PrefixCapture.shouldExclude [ofStr "a/*"] (ofStr "a\\b") = true := by
  have h := c8_amended_separator_invariance.2 (ofStr "a/b") [ofStr "a/*"]
    (by decide) (by decide)
  have e : (ofStr "a/b").map (fun c => if c == '/' then '\\' else c) = ofStr "a\\b" := by
    decide
  rw [e] at h
  exact h

/-!
## analysis.py — PrefixAnalyzer
-/

/-- The `DetectedExecutable` dataclass. -/
structure DetectedExecutable where
  path : Str
  name : Str
  size : Nat
  probable_app : Bool
  deriving DecidableEq

/-- One regular file yielded by `os.walk`: its name and the result of
`stat().st_size` (`none` models the stat raising; the source then counts
the size as 0). -/
structure WalkFile where
  name : Str
  stat_size : Option Nat
  deriving DecidableEq

/-- One directory yielded by `os.walk(drive_c)`: `rel_root` is
`str(Path(root).relative_to(self.prefix_path))`, `files` the regular
files in walk order. -/
structure WalkDir where
  rel_root : Str
  files : List WalkFile
  deriving DecidableEq

/-- The `SKIP_DIRS` list. -/
def SKIP_DIRS : List Str :=
  [ofStr "windows", ofStr "Program Files/Common Files",
   ofStr "Program Files (x86)/Common Files", ofStr "Program Files/Windows",
   ofStr "ProgramData"]

/-- `skip_dir.lower() in str(rel_root).lower()` over `SKIP_DIRS`. -/
def skipDirB (rel_root : Str) : Bool :=
  SKIP_DIRS.any (fun sd => containsSub (lowerStr sd) (lowerStr rel_root))

/-- Strip trailing decimal digits. -/
def dropTrailingDigits (l : Str) : Str :=
  (l.reverse.dropWhile (fun c => c.isDigit)).reverse

/-- The name without its final `.exe` (callers have checked the suffix). -/
def withoutExeSuffix (l : Str) : Str := l.take (l.length - 4)

/-- `re.search(X + r'.*\.exe$', l)` for a literal `X`: the name ends in
`.exe` and contains `X` somewhere before that final suffix. -/
def matchesContainsRule (w l : Str) : Bool :=
  (ofStr ".exe").isSuffixOf l && containsSub w (withoutExeSuffix l)

/-- The `SKIP_EXE_PATTERNS` disjunction, evaluated on the lowercased file
name (the source compiles the fixed regexes with `re.IGNORECASE` and uses
`p.search(file)`): `unins\d*\.exe$`, `uninst.*\.exe$`, `setup\.exe$`,
`install.*\.exe$`, `update.*\.exe$`, `crash.*\.exe$`, `report.*\.exe$`,
`helper.*\.exe$`, `launcher\.exe$`. -/
def matchesSkipPattern (l : Str) : Bool :=
  ((ofStr ".exe").isSuffixOf l
      && (ofStr "unins").isSuffixOf (dropTrailingDigits (withoutExeSuffix l)))
  || matchesContainsRule (ofStr "uninst") l
  || (ofStr "setup.exe").isSuffixOf l
  || matchesContainsRule (ofStr "install") l
  || matchesContainsRule (ofStr "update") l
  || matchesContainsRule (ofStr "crash") l
  || matchesContainsRule (ofStr "report") l
  || matchesContainsRule (ofStr "helper") l
  || (ofStr "launcher.exe").isSuffixOf l

/-- `file.lower().endswith(".exe")`. -/
def isExeFile (n : Str) : Bool := (ofStr ".exe").isSuffixOf (lowerStr n)

/-- `pathlib`'s `Path(name).stem`: the name up to its last dot, when that
dot is neither the first nor the last character. -/
def stem (n : Str) : Str :=
  let k := (n.reverse.takeWhile (fun c => c != '.')).length
  if k = n.length then n
  else
    let i := n.length - 1 - k
    if 0 < i ∧ i < n.length - 1 then n.take i else n

/-- `size` after the guarded `stat` (an exception counts as 0). -/
def statSize (f : WalkFile) : Nat := f.stat_size.getD 0

/-- The `DetectedExecutable` built for a surviving file. -/
def mkCandidate (rel_root : Str) (f : WalkFile) : DetectedExecutable :=
  { path := rel_root ++ '/' :: f.name,
    name := stem f.name,
    size := statSize f,
    probable_app := decide (1000000 < statSize f) }

/-- The inner loop body of `_find_executables` for one walked directory. -/
def collectDir (d : WalkDir) : List DetectedExecutable :=
  if skipDirB d.rel_root then []
  else d.files.filterMap (fun f =>
    if isExeFile f.name && !(matchesSkipPattern (lowerStr f.name)) then
      some (mkCandidate d.rel_root f)
    else none)

/-- Stable insertion for a size-descending order: an element is placed
before the first element whose size does not exceed it, so earlier
elements stay ahead of later equal-sized ones (Python's stable
`sort(key=size, reverse=True)`). -/
def insertBySizeDesc (x : DetectedExecutable) :
    List DetectedExecutable → List DetectedExecutable
  | [] => [x]
  | y :: ys => if y.size ≤ x.size then x :: y :: ys else y :: insertBySizeDesc x ys

/-- `executables.sort(key=lambda x: x.size, reverse=True)` (stable). -/
def sortBySizeDesc (l : List DetectedExecutable) : List DetectedExecutable :=
  l.foldr insertBySizeDesc []

/-- Embeds `PrefixAnalyzer._find_executables` as a function of the
`os.walk(drive_c)` result: skip system directories, keep non-skip-pattern
`.exe` files, classify by the 1 MB threshold, sort by size descending. -/
def PrefixAnalyzer.findExecutables (walk : List WalkDir) : List DetectedExecutable :=
  sortBySizeDesc (walk.bind collectDir)

theorem mem_insertBySizeDesc {x z : DetectedExecutable} :
    ∀ {l}, z ∈ insertBySizeDesc x l ↔ z = x ∨ z ∈ l := by
  intro l
  induction l with
  | nil => simp [insertBySizeDesc]
  | cons y ys ih =>
      by_cases h : y.size ≤ x.size
      · simp [insertBySizeDesc, h]
      · simp only [insertBySizeDesc, if_neg h, List.mem_cons, ih]
        tauto

theorem insertBySizeDesc_perm (x : DetectedExecutable) :
    ∀ l, List.Perm (insertBySizeDesc x l) (x :: l) := by
  intro l
  induction l with
  | nil => exact List.Perm.refl _
  | cons y ys ih =>
      by_cases h : y.size ≤ x.size
      · rw [insertBySizeDesc, if_pos h]
      · rw [insertBySizeDesc, if_neg h]
        exact (ih.cons y).trans (List.Perm.swap x y ys)

theorem sortBySizeDesc_perm : ∀ l, List.Perm (sortBySizeDesc l) l := by
  intro l
  induction l with
  | nil => exact List.Perm.refl _
  | cons y ys ih =>
      have h1 : sortBySizeDesc (y :: ys) = insertBySizeDesc y (sortBySizeDesc ys) := rfl
      rw [h1]
      exact (insertBySizeDesc_perm y (sortBySizeDesc ys)).trans (ih.cons y)

theorem pairwise_insertBySizeDesc (x : DetectedExecutable) :
    ∀ l, l.Pairwise (fun a b => b.size ≤ a.size) →
      (insertBySizeDesc x l).Pairwise (fun a b => b.size ≤ a.size) := by
  intro l
  induction l with
  | nil => intro _; simp [insertBySizeDesc]
  | cons y ys ih =>
      intro hp
      rcases List.pairwise_cons.mp hp with ⟨hy, hys⟩
      by_cases h : y.size ≤ x.size
      · rw [insertBySizeDesc, if_pos h]
        refine List.pairwise_cons.mpr ⟨?_, hp⟩
        intro z hz
        rcases List.mem_cons.mp hz with hz | hz
        · rw [hz]; exact h
        · exact Nat.le_trans (hy z hz) h
      · rw [insertBySizeDesc, if_neg h]
        refine List.pairwise_cons.mpr ⟨?_, ih hys⟩
        intro z hz
        rcases mem_insertBySizeDesc.mp hz with hz | hz
        · rw [hz]; exact Nat.le_of_lt (Nat.lt_of_not_le h)
        · exact hy z hz

theorem sortBySizeDesc_pairwise :
    ∀ l, (sortBySizeDesc l).Pairwise (fun a b => b.size ≤ a.size) := by
  intro l
  induction l with
  | nil => simp [sortBySizeDesc]
  | cons y ys ih => exact pairwise_insertBySizeDesc y (sortBySizeDesc ys) ih

/-- Every candidate returned by `findExecutables` originates from one
walked file that survived the directory skip, the `.exe` test and the
skip-pattern test. -/
theorem findExecutables_origin (walk : List WalkDir) (c : DetectedExecutable)
    (hc : c ∈ PrefixAnalyzer.findExecutables walk) :
    ∃ d, d ∈ walk ∧ ∃ f, f ∈ d.files ∧ skipDirB d.rel_root = false
      ∧ isExeFile f.name = true ∧ matchesSkipPattern (lowerStr f.name) = false
      ∧ c = mkCandidate d.rel_root f := by
  have hc2 : c ∈ walk.bind collectDir :=
    (sortBySizeDesc_perm (walk.bind collectDir)).mem_iff.mp hc
  rcases List.mem_bind.mp hc2 with ⟨d, hd, hcd⟩
  refine ⟨d, hd, ?_⟩
  unfold collectDir at hcd
  by_cases hskip : skipDirB d.rel_root
  · rw [if_pos hskip] at hcd; cases hcd
  · rw [if_neg hskip] at hcd
    rcases List.mem_filterMap.mp hcd with ⟨f, hf, hsome⟩
    by_cases hcond : isExeFile f.name && !(matchesSkipPattern (lowerStr f.name))
    · rw [if_pos hcond] at hsome
      have he : isExeFile f.name = true := by
        cases h1 : isExeFile f.name
        · rw [h1] at hcond; simp at hcond
        · rfl
      have hns : matchesSkipPattern (lowerStr f.name) = false := by
        cases h2 : matchesSkipPattern (lowerStr f.name)
        · rfl
        · rw [h2] at hcond; simp at hcond
      have hskipf : skipDirB d.rel_root = false := by
        cases h3 : skipDirB d.rel_root
        · rfl
        · exact absurd h3 hskip
      exact ⟨f, hf, hskipf, he, hns, (Option.some.inj hsome).symm⟩
    · rw [if_neg hcond] at hsome; cases hsome

/-- A walk with an installer, a large app, and two tied small tools. -/
def demoWalk : List WalkDir :=
  [{ rel_root := ofStr "drive_c/Games",
     files := [{ name := ofStr "setup.exe", stat_size := some 5000000 },
               { name := ofStr "game.exe", stat_size := some 2000000 },
               { name := ofStr "tool.exe", stat_size := some 10240 },
               { name := ofStr "tool2.exe", stat_size := some 10240 }] }]

/-- The 2 MB `game.exe` candidate. -/
def demoGameCand : DetectedExecutable :=
  { path := ofStr "drive_c/Games/game.exe", name := ofStr "game",
    size := 2000000, probable_app := true }

/-- The 10 KB `tool.exe` candidate. -/
def demoToolCand : DetectedExecutable :=
  { path := ofStr "drive_c/Games/tool.exe", name := ofStr "tool",
    size := 10240, probable_app := false }

/-- The 10 KB `tool2.exe` candidate (walk-tied with `tool.exe`). -/
def demoTool2Cand : DetectedExecutable :=
  { path := ofStr "drive_c/Games/tool2.exe", name := ofStr "tool2",
    size := 10240, probable_app := false }

/-- C7: every returned candidate comes from a surviving `.exe` (so every
skip-pattern name such as `setup.exe` is excluded regardless of size), its
`probable_app` flag is exactly the 1 MB-threshold test of its size, and
the result is sorted by size descending; on the concrete walk the 5 MB
`setup.exe` is absent, the 2 MB `game.exe` is ranked first with
`probable_app`, and the two tied 10 KB tools keep their walk order. -/
theorem c7_find_executables_filter_classify_sort :
    (∀ walk : List WalkDir,
        (PrefixAnalyzer.findExecutables walk).Pairwise (fun a b => b.size ≤ a.size))
  ∧ (∀ (walk : List WalkDir) (c : DetectedExecutable),
        c ∈ PrefixAnalyzer.findExecutables walk →
          c.probable_app = decide (1000000 < c.size))
  ∧ (∀ (walk : List WalkDir) (c : DetectedExecutable),
        c ∈ PrefixAnalyzer.findExecutables walk →
          ∃ d, d ∈ walk ∧ ∃ f, f ∈ d.files ∧ skipDirB d.rel_root = false
            ∧ isExeFile f.name = true ∧ matchesSkipPattern (lowerStr f.name) = false
            ∧ c = mkCandidate d.rel_root f)
  ∧ PrefixAnalyzer.findExecutables demoWalk = [demoGameCand, demoToolCand, demoTool2Cand] := by
  refine ⟨?_, ?_, findExecutables_origin, by decide⟩
  · intro walk
    exact sortBySizeDesc_pairwise (walk.bind collectDir)
  · intro walk c hc
    rcases findExecutables_origin walk c hc with ⟨d, _, f, _, _, _, _, hmk⟩
    rw [hmk]
    rfl

/-- Witness for C7: the concrete `game.exe` candidate is in the result and
its `probable_app` flag is its size test. -/
theorem c7_find_executables_filter_classify_sort_witness :
    demoGameCand ∈ PrefixAnalyzer.findExecutables demoWalk
  ∧ demoGameCand.probable_app = decide (1000000 < demoGameCand.size) :=
  ⟨by decide,
   c7_find_executables_filter_classify_sort.2.1 demoWalk demoGameCand (by decide)⟩

/-- The `PrefixAnalysis` dataclass with its defaults.  The source fields
`exists` and `is_valid_prefix` are named `exists_` / `is_valid` here. -/
structure PrefixAnalysis where
  prefix_path : Str
  exists_ : Bool
  is_valid : Bool
  arch : Str
  has_system_reg : Bool
  has_user_reg : Bool
  total_size : Nat
  drive_c_size : Nat
  wine_version : Option Str
  has_dxvk : Bool
  dxvk_version : Option Str
  has_vkd3d : Bool
  vkd3d_version : Option Str
  detected_user : Option Str
  executables : List DetectedExecutable
  warnings : List Str

/-- `PrefixAnalysis(prefix_path=...)` — all other fields defaulted. -/
def PrefixAnalysis.init (p : Str) : PrefixAnalysis :=
  { prefix_path := p, exists_ := false, is_valid := false, arch := ofStr "win64",
    has_system_reg := false, has_user_reg := false, total_size := 0, drive_c_size := 0,
    wine_version := none, has_dxvk := false, dxvk_version := none,
    has_vkd3d := false, vkd3d_version := none, detected_user := none,
    executables := [], warnings := [] }

/-- One entry of `users_dir.iterdir()` as the source consults it
(`entry.name`, and `entry.is_dir()`, which is total in pathlib). -/
structure DirEntry where
  name : Str
  is_dir : Bool

/-- An operating-system error propagating out of an unguarded call. -/
inductive OSErr
  | permissionDenied
  deriving DecidableEq

/-- The filesystem state consulted by `PrefixAnalyzer.analyze`.  The
queries the source wraps in try/except or that are total in pathlib
(`exists`, `is_dir`, `is_symlink`, the best-effort `_get_dir_size` sums,
the guarded registry read, the guarded DLL stats, the error-swallowing
`os.walk`) appear as total precomputed fields; the one unguarded fallible
call — the `iterdir()` listing inside `_detect_user` — is
`Except`-valued. -/
structure FS where
  path_str : Str
  root_exists : Bool
  drive_c_exists : Bool
  system_reg_exists : Bool
  user_reg_exists : Bool
  syswow64_exists : Bool
  users_dir_exists : Bool
  users_listing : Except OSErr (List DirEntry)
  scan_total_size : Nat
  scan_drive_c_size : Nat
  reg_product_version : Option Str
  dll_size : Str → Option Nat
  walk : List WalkDir
  shell_link : Str → Str → Option Str
  z_link : Option Str

/-- Embeds `PrefixAnalyzer._detect_arch`. -/
def PrefixAnalyzer.detectArch (fs : FS) : Str :=
  if fs.syswow64_exists then ofStr "win64" else ofStr "win32"

/-- The loop of `_detect_user`: first directory entry whose lowercased
name is neither "public" nor "default". -/
def firstUserEntry : List DirEntry → Option Str
  | [] => none
  | e :: rest =>
      if e.is_dir && !(lowerStr e.name == ofStr "public" || lowerStr e.name == ofStr "default")
      then some e.name
      else firstUserEntry rest

/-- Embeds `PrefixAnalyzer._detect_user`; the `iterdir()` call can raise
(e.g. `PermissionError` on an unreadable directory) and is not guarded in
the source. -/
def PrefixAnalyzer.detectUser (fs : FS) : Except OSErr (Option Str) :=
  if fs.users_dir_exists then
    match fs.users_listing with
    | .error e => .error e
    | .ok entries => .ok (firstUserEntry entries)
  else .ok none

/-- Embeds `PrefixAnalyzer._detect_wine_version` (the guarded read and
regex extraction are summarised by `reg_product_version`). -/
def PrefixAnalyzer.detectWineVersion (fs : FS) : Option Str :=
  if fs.system_reg_exists then fs.reg_product_version else none

/-- The DXVK shim DLL names checked by `_detect_dxvk`. -/
def dxvkDlls : List Str :=
  [ofStr "d3d9.dll", ofStr "d3d10core.dll", ofStr "d3d11.dll", ofStr "dxgi.dll"]

/-- Embeds `PrefixAnalyzer._detect_dxvk`: some shim DLL exists with a
stat-reported size above 100 KB (`none` covers both a missing DLL and a
failed stat, which the source skips alike). -/
def PrefixAnalyzer.detectDxvk (fs : FS) : Bool :=
  dxvkDlls.any (fun dll =>
    match fs.dll_size dll with
    | some n => decide (100000 < n)
    | none => false)

/-- Embeds `PrefixAnalyzer._detect_vkd3d`. -/
def PrefixAnalyzer.detectVkd3d (fs : FS) : Bool :=
  match fs.dll_size (ofStr "d3d12.dll") with
  | some n => decide (100000 < n)
  | none => false

/-- The shell folders inspected by `_check_issues`. -/
def shellFolders : List Str :=
  [ofStr "Desktop", ofStr "Documents", ofStr "Downloads", ofStr "Music",
   ofStr "Pictures", ofStr "Videos"]

/-- Embeds `PrefixAnalyzer._check_issues`: a warning per shell-folder
symlink with an absolute target, then the z:-drive warning when it links
to `/` exactly. -/
def PrefixAnalyzer.checkIssues (fs : FS) (detected_user : Option Str) : List Str :=
  (match detected_user with
   | some u =>
       shellFolders.filterMap (fun item =>
         match fs.shell_link u item with
         | some tgt =>
             if startsWithSlash tgt then
               some (ofStr "Shell folder '" ++ item
                 ++ ofStr "' links to absolute path: " ++ tgt)
             else none
         | none => none)
   | none => [])
  ++ (match fs.z_link with
      | some tgt =>
          if tgt = ofStr "/" then
            [ofStr "Z: drive exposes full filesystem - consider sandboxing"]
          else []
      | none => [])

/-- Embeds `PrefixAnalyzer.analyze`: the nonexistent-path early return,
the structural-validity early return, then the full report assembly; the
unguarded `iterdir` of `_detect_user` is the call whose error escapes. -/
def PrefixAnalyzer.analyze (fs : FS) : Except OSErr PrefixAnalysis :=
  let r0 := PrefixAnalysis.init fs.path_str
  if fs.root_exists = false then
    .ok { r0 with warnings := [ofStr "Prefix path does not exist: " ++ fs.path_str] }
  else
    let r1 := { r0 with
      exists_ := true,
      has_system_reg := fs.system_reg_exists,
      has_user_reg := fs.user_reg_exists,
      is_valid := fs.drive_c_exists && fs.system_reg_exists }
    if (fs.drive_c_exists && fs.system_reg_exists) = false then
      .ok { r1 with warnings :=
        [ofStr "Missing drive_c or system.reg - may not be a valid Wine prefix"] }
    else
      match PrefixAnalyzer.detectUser fs with
      | .error e => .error e
      | .ok user =>
          .ok { r1 with
            arch := PrefixAnalyzer.detectArch fs,
            detected_user := user,
            total_size := fs.scan_total_size,
            drive_c_size := fs.scan_drive_c_size,
            wine_version := PrefixAnalyzer.detectWineVersion fs,
            has_dxvk := PrefixAnalyzer.detectDxvk fs,
            has_vkd3d := PrefixAnalyzer.detectVkd3d fs,
            executables := PrefixAnalyzer.findExecutables fs.walk,
            warnings := PrefixAnalyzer.checkIssues fs user }

/-- A structurally valid prefix whose `drive_c/users` directory listing
fails with a permission error. -/
def fsUnreadableUsers : FS :=
  { path_str := ofStr "/prefixes/app", root_exists := true, drive_c_exists := true,
    system_reg_exists := true, user_reg_exists := true, syswow64_exists := true,
    users_dir_exists := true, users_listing := .error .permissionDenied,
    scan_total_size := 0, scan_drive_c_size := 0, reg_product_version := none,
    dll_size := fun _ => none, walk := [], shell_link := fun _ _ => none,
    z_link := none }

/-- C4 counterexample: `analyze` is not exception-free for every prefix
state — on a structurally valid prefix with an unreadable users directory,
the `iterdir` error propagates out of `analyze`. -/
theorem c4_counterexample_analyze_raises :
    PrefixAnalyzer.analyze fsUnreadableUsers = .error OSErr.permissionDenied := rfl

/-- C4 (amended): for every prefix lacking the drive_c marker or the
system.reg file (including a nonexistent path), `analyze` returns a report
with validity false and at least one warning, and does not raise; the
unrestricted never-raises clause fails (see the counterexample). -/
theorem c4_amended_invalid_cases_never_raise :
    ∀ fs : FS,
      fs.root_exists = false ∨ fs.drive_c_exists = false ∨ fs.system_reg_exists = false →
      ∃ r, PrefixAnalyzer.analyze fs = .ok r ∧ r.is_valid = false ∧ r.warnings ≠ [] := by
  intro fs h
  unfold PrefixAnalyzer.analyze
  by_cases h1 : fs.root_exists = false
  · rw [if_pos h1]
    exact ⟨_, rfl, rfl, by simp⟩
  · rw [if_neg h1]
    have h2 : (fs.drive_c_exists && fs.system_reg_exists) = false := by
      rcases h with h | h | h
      · exact absurd h h1
      · simp [h]
      · simp [h]
    rw [if_pos h2]
    refine ⟨_, rfl, ?_, by simp⟩
    simp [h2]

/-- A prefix state lacking `drive_c`. -/
def fsMissingDriveC : FS :=
  { fsUnreadableUsers with drive_c_exists := false, users_listing := .ok [] }

/-- Witness for C4 (amended) at a prefix state lacking `drive_c`. -/
theorem c4_amended_invalid_cases_never_raise_witness :
    ∃ r, PrefixAnalyzer.analyze fsMissingDriveC = .ok r
      ∧ r.is_valid = false ∧ r.warnings ≠ [] :=
  c4_amended_invalid_cases_never_raise fsMissingDriveC (Or.inr (Or.inl rfl))

/-!
## capture.py — PrefixCapture.normalize

`normalize` begins with `analysis = self.analyze()` (cached on the
instance; computed by `PrefixAnalyzer(...).analyze()` on first use), so an
exception escaping the analysis — the unguarded `iterdir()` of
`_detect_user` — escapes `normalize` as well, before either `CaptureError`
check runs.
-/

/-- An error escaping `normalize`: either an OS error propagating out of
its internal `self.analyze()` call, or one of its own `CaptureError`s. -/
inductive NormalizeError
  | osError (e : OSErr)
  | captureError (k : CaptureErrorKind)
  deriving DecidableEq

/-- Embeds `PrefixCapture.normalize`: run the analysis (propagating its
error, if any), require a structurally valid verdict and a nonempty
executable list, then keep explicit app metadata or synthesize the default
from the first executable's display name.  Returns the resulting
`_app_metadata` and `_normalized` flag. -/
def PrefixCapture.normalize (fs : FS) (executables : List Executable)
    (app_metadata : Option AppMetadata) : Except NormalizeError (AppMetadata × Bool) :=
  match PrefixAnalyzer.analyze fs with
  | .error e => .error (.osError e)
  | .ok analysis =>
      if analysis.is_valid = false then .error (.captureError .invalidPrefixStructure)
      else
        match executables with
        | [] => .error (.captureError .noExecutables)
        | e :: _ =>
            match app_metadata with
            | some m => .ok (m, true)
            | none => .ok (defaultAppMetadata (slugify e.name) e.name, true)

/-- C6 counterexample: `normalize` raises although neither claimed
condition holds — at a prefix state with both structural markers present
(so structural validation would not fail) and one configured executable,
the `self.analyze()` call at the top of `normalize` raises through the
unreadable users directory, and that error escapes `normalize`. -/
theorem c6_counterexample_normalize_raises_on_unreadable_users :
    PrefixCapture.normalize fsUnreadableUsers [demoExecutable] none
      = .error (NormalizeError.osError OSErr.permissionDenied)
  ∧ fsUnreadableUsers.drive_c_exists = true
  ∧ fsUnreadableUsers.system_reg_exists = true
  ∧ [demoExecutable] ≠ ([] : List Executable) := by
  refine ⟨rfl, rfl, rfl, by simp⟩

/-- C6 (amended): `normalize` raises exactly when its initial
`self.analyze()` call itself raises, or the analysis verdict fails
structural validation, or no executables are configured; when none of
these hold it succeeds, keeping explicitly-set app metadata or
synthesizing the default metadata from the first executable's display
name. -/
theorem c6_amended_normalize_error_iff :
    ∀ (fs : FS) (exes : List Executable) (meta : Option AppMetadata),
      ((∃ err, PrefixCapture.normalize fs exes meta = .error err)
          ↔ ((∃ e, PrefixAnalyzer.analyze fs = .error e)
              ∨ (∃ r, PrefixAnalyzer.analyze fs = .ok r ∧ r.is_valid = false)
              ∨ exes = []))
    ∧ (∀ r e rest m, PrefixAnalyzer.analyze fs = .ok r → r.is_valid = true →
          exes = e :: rest → meta = some m →
          PrefixCapture.normalize fs exes meta = .ok (m, true))
    ∧ (∀ r e rest, PrefixAnalyzer.analyze fs = .ok r → r.is_valid = true →
          exes = e :: rest → meta = none →
          PrefixCapture.normalize fs exes meta
            = .ok (defaultAppMetadata (slugify e.name) e.name, true)) := by
  intro fs exes meta
  refine ⟨?_, ?_, ?_⟩
  · cases h : PrefixAnalyzer.analyze fs with
    | error e =>
        simp [PrefixCapture.normalize, h]
        exact Or.inl ⟨e, trivial⟩
    | ok r =>
        cases hv : r.is_valid with
        | false => simp [PrefixCapture.normalize, h, hv]
        | true =>
            cases exes with
            | nil => simp [PrefixCapture.normalize, h, hv]
            | cons e0 rest =>
                cases meta with
                | none => simp [PrefixCapture.normalize, h, hv]
                | some m => simp [PrefixCapture.normalize, h, hv]
  · intro r e rest m h hv hx hm
    subst hx; subst hm
    simp [PrefixCapture.normalize, h, hv]
  · intro r e rest h hv hx hm
    subst hx; subst hm
    simp [PrefixCapture.normalize, h, hv]

/-- The counterexample's prefix state with a readable (empty) users
directory: analysis succeeds with a valid verdict. -/
def fsValidReadable : FS :=
  { fsUnreadableUsers with users_listing := .ok [] }

/-- Witness for C6 (amended): on a valid, readable prefix with one
executable and no explicit metadata, `normalize` succeeds and derives the
default metadata. -/
theorem c6_amended_normalize_error_iff_witness :
    PrefixCapture.normalize fsValidReadable [demoExecutable] none
      = .ok (defaultAppMetadata (slugify demoExecutable.name) demoExecutable.name, true) :=
  (c6_amended_normalize_error_iff fsValidReadable [demoExecutable] none).2.2
    _ demoExecutable [] rfl rfl rfl rfl

/-!
## spec.py — manifest serialization (`PackageSpec.save` / `PackageSpec.load`)

`save` writes `model_dump_json()` to `manifest.json`; `load` parses the
file and `model_validate`s the result.  Every field of the models is a
string, boolean, optional string, list of strings, or a submodel, so the
embedding works at the JSON document level (the JSON text layer below it
is the standard one and round-trips); `model_dump_json` emits every field,
`model_validate` requires defaultless fields and applies the pydantic
defaults for absent ones, rejecting wrongly-typed values.
-/

/-- A JSON document (no numbers occur in any `PackageSpec` field). -/
inductive JVal
  | jstr (s : Str)
  | jbool (b : Bool)
  | jnull
  | jarr (xs : List JVal)
  | jobj (fields : List (Str × JVal))

/-- Serialize an `Optional[str]` field. -/
def encOptStr : Option Str → JVal
  | none => .jnull
  | some s => .jstr s

/-- Serialize a `list[str]` field. -/
def encStrList (l : List Str) : JVal := .jarr (l.map JVal.jstr)

/-- Serialize the `WineMode` string enum by its value. -/
def encWineMode : WineMode → JVal
  | .system => .jstr (ofStr "system")
  | .bundled => .jstr (ofStr "bundled")

/-- `Executable.model_dump_json` at the document level. -/
def Executable.toJson (e : Executable) : JVal :=
  .jobj [(ofStr "id", .jstr e.id), (ofStr "name", .jstr e.name),
         (ofStr "path", .jstr e.path), (ofStr "command", encOptStr e.command),
         (ofStr "args", .jstr e.args), (ofStr "working_dir", encOptStr e.working_dir),
         (ofStr "icon", encOptStr e.icon), (ofStr "description", encOptStr e.description),
         (ofStr "wm_class", encOptStr e.wm_class),
         (ofStr "create_desktop_entry", .jbool e.create_desktop_entry),
         (ofStr "categories", encStrList e.categories)]

/-- `WineConfig.model_dump_json` at the document level. -/
def WineConfig.toJson (w : WineConfig) : JVal :=
  .jobj [(ofStr "mode", encWineMode w.mode),
         (ofStr "system_min_version", encOptStr w.system_min_version),
         (ofStr "bundled_path", encOptStr w.bundled_path)]

/-- `PrefixMetadata.model_dump_json` at the document level. -/
def PrefixMetadata.toJson (p : PrefixMetadata) : JVal :=
  .jobj [(ofStr "original_user", .jstr p.original_user),
         (ofStr "original_path", .jstr p.original_path),
         (ofStr "normalized_user", .jstr p.normalized_user),
         (ofStr "original_wine_version", encOptStr p.original_wine_version),
         (ofStr "has_dxvk", .jbool p.has_dxvk),
         (ofStr "has_vkd3d", .jbool p.has_vkd3d),
         (ofStr "arch", .jstr p.arch)]

/-- `InstallConfig.model_dump_json` at the document level. -/
def InstallConfig.toJson (i : InstallConfig) : JVal :=
  .jobj [(ofStr "system_path", .jstr i.system_path),
         (ofStr "user_data_path", .jstr i.user_data_path),
         (ofStr "use_overlay", .jbool i.use_overlay)]

/-- `AppMetadata.model_dump_json` at the document level. -/
def AppMetadata.toJson (a : AppMetadata) : JVal :=
  .jobj [(ofStr "name", .jstr a.name), (ofStr "display_name", .jstr a.display_name),
         (ofStr "version", .jstr a.version), (ofStr "description", .jstr a.description),
         (ofStr "maintainer", encOptStr a.maintainer),
         (ofStr "homepage", encOptStr a.homepage),
         (ofStr "license", .jstr a.license)]

/-- `PackageSpec.model_dump_json` at the document level (the `save`
payload). -/
def PackageSpec.toJson (s : PackageSpec) : JVal :=
  .jobj [(ofStr "schema_version", .jstr s.schema_version),
         (ofStr "app", s.app.toJson),
         (ofStr "wine", s.wine.toJson),
         (ofStr "prefix", s.prefix_.toJson),
         (ofStr "executables", .jarr (s.executables.map Executable.toJson)),
         (ofStr "install", s.install.toJson),
         (ofStr "excluded_patterns", encStrList s.excluded_patterns)]

/-- Key lookup in a JSON object. -/
def jget (k : Str) : List (Str × JVal) → Option JVal
  | [] => none
  | (a, v) :: rest => if a = k then some v else jget k rest

/-- Validate a string value. -/
def asStr : JVal → Option Str
  | .jstr s => some s
  | _ => none

/-- Validate a boolean value. -/
def asBool : JVal → Option Bool
  | .jbool b => some b
  | _ => none

/-- Validate an `Optional[str]` value. -/
def asOptStr : JVal → Option (Option Str)
  | .jnull => some none
  | .jstr s => some (some s)
  | _ => none

/-- Validate a `WineMode` value. -/
def asWineMode : JVal → Option WineMode
  | .jstr s =>
      if s = ofStr "system" then some .system
      else if s = ofStr "bundled" then some .bundled
      else none
  | _ => none

/-- A required string field. -/
def reqStr (fs : List (Str × JVal)) (k : Str) : Option Str :=
  (jget k fs).bind asStr

/-- A string field with a default. -/
def fldStr (fs : List (Str × JVal)) (k : Str) (d : Str) : Option Str :=
  match jget k fs with
  | none => some d
  | some v => asStr v

/-- A boolean field with a default. -/
def fldBool (fs : List (Str × JVal)) (k : Str) (d : Bool) : Option Bool :=
  match jget k fs with
  | none => some d
  | some v => asBool v

/-- An `Optional[str]` field (default `None`). -/
def fldOptStr (fs : List (Str × JVal)) (k : Str) : Option (Option Str) :=
  match jget k fs with
  | none => some none
  | some v => asOptStr v

/-- Validate each element of a `list[str]` value. -/
def decodeStrList : List JVal → Option (List Str)
  | [] => some []
  | v :: vs => do
      let s ← asStr v
      let rest ← decodeStrList vs
      some (s :: rest)

/-- `Executable.model_validate` at the document level. -/
def Executable.fromJson : JVal → Option Executable
  | .jobj fs => do
      let i ← reqStr fs (ofStr "id")
      let n ← reqStr fs (ofStr "name")
      let p ← reqStr fs (ofStr "path")
      let cmd ← fldOptStr fs (ofStr "command")
      let a ← fldStr fs (ofStr "args") []
      let w ← fldOptStr fs (ofStr "working_dir")
      let ic ← fldOptStr fs (ofStr "icon")
      let d ← fldOptStr fs (ofStr "description")
      let wm ← fldOptStr fs (ofStr "wm_class")
      let cde ← fldBool fs (ofStr "create_desktop_entry") true
      let cats ← (match jget (ofStr "categories") fs with
                  | none => some [ofStr "Application"]
                  | some (.jarr xs) => decodeStrList xs
                  | some _ => none)
      some { id := i, name := n, path := p, command := cmd, args := a,
             working_dir := w, icon := ic, description := d, wm_class := wm,
             create_desktop_entry := cde, categories := cats }
  | _ => none

/-- `WineConfig.model_validate` at the document level. -/
def WineConfig.fromJson : JVal → Option WineConfig
  | .jobj fs => do
      let m ← (match jget (ofStr "mode") fs with
               | none => some WineMode.system
               | some v => asWineMode v)
      let mv ← fldOptStr fs (ofStr "system_min_version")
      let bp ← fldOptStr fs (ofStr "bundled_path")
      some { mode := m, system_min_version := mv, bundled_path := bp }
  | _ => none

/-- `PrefixMetadata.model_validate` at the document level. -/
def PrefixMetadata.fromJson : JVal → Option PrefixMetadata
  | .jobj fs => do
      let ou ← reqStr fs (ofStr "original_user")
      let op ← reqStr fs (ofStr "original_path")
      let nu ← fldStr fs (ofStr "normalized_user") (ofStr "__WINE_USER__")
      let ow ← fldOptStr fs (ofStr "original_wine_version")
      let hd ← fldBool fs (ofStr "has_dxvk") false
      let hv ← fldBool fs (ofStr "has_vkd3d") false
      let ar ← fldStr fs (ofStr "arch") (ofStr "win64")
      some { original_user := ou, original_path := op, normalized_user := nu,
             original_wine_version := ow, has_dxvk := hd, has_vkd3d := hv, arch := ar }
  | _ => none

/-- `InstallConfig.model_validate` at the document level. -/
def InstallConfig.fromJson : JVal → Option InstallConfig
  | .jobj fs => do
      let sp ← fldStr fs (ofStr "system_path") (ofStr "/opt/{name}")
      let up ← fldStr fs (ofStr "user_data_path") (ofStr "${XDG_DATA_HOME}/{name}")
      let uo ← fldBool fs (ofStr "use_overlay") false
      some { system_path := sp, user_data_path := up, use_overlay := uo }
  | _ => none

/-- `AppMetadata.model_validate` at the document level. -/
def AppMetadata.fromJson : JVal → Option AppMetadata
  | .jobj fs => do
      let n ← reqStr fs (ofStr "name")
      let dn ← reqStr fs (ofStr "display_name")
      let v ← fldStr fs (ofStr "version") (ofStr "1.0.0")
      let d ← fldStr fs (ofStr "description")
                (ofStr "A Windows application packaged for Linux")
      let m ← fldOptStr fs (ofStr "maintainer")
      let h ← fldOptStr fs (ofStr "homepage")
      let l ← fldStr fs (ofStr "license") (ofStr "Proprietary")
      some { name := n, display_name := dn, version := v, description := d,
             maintainer := m, homepage := h, license := l }
  | _ => none

/-- Validate each element of the executables array. -/
def decodeExeList : List JVal → Option (List Executable)
  | [] => some []
  | v :: vs => do
      let e ← Executable.fromJson v
      let rest ← decodeExeList vs
      some (e :: rest)

/-- The `excluded_patterns` default of spec.py's `PackageSpec` model. -/
def specDefaultExcluded : List Str :=
  [ofStr "*.dxvk-cache", ofStr "*.log", ofStr "mesa_shader_cache/**",
   ofStr "nvidiav1/**", ofStr "GLCache/**", ofStr "drive_c/users/*/Temp/**"]

/-- `PackageSpec.model_validate` at the document level (the `load`
validation). -/
def PackageSpec.fromJson : JVal → Option PackageSpec
  | .jobj fs => do
      let sv ← fldStr fs (ofStr "schema_version") (ofStr "1")
      let app ← (jget (ofStr "app") fs).bind AppMetadata.fromJson
      let wine ← (match jget (ofStr "wine") fs with
                  | none => some { mode := WineMode.system, system_min_version := none,
                                   bundled_path := none }
                  | some v => WineConfig.fromJson v)
      let pm ← (jget (ofStr "prefix") fs).bind PrefixMetadata.fromJson
      let exes ← (match jget (ofStr "executables") fs with
                  | none => some []
                  | some (.jarr xs) => decodeExeList xs
                  | some _ => none)
      let inst ← (match jget (ofStr "install") fs with
                  | none => some { system_path := ofStr "/opt/{name}",
                                   user_data_path := ofStr "${XDG_DATA_HOME}/{name}",
                                   use_overlay := false }
                  | some v => InstallConfig.fromJson v)
      let pats ← (match jget (ofStr "excluded_patterns") fs with
                  | none => some specDefaultExcluded
                  | some (.jarr xs) => decodeStrList xs
                  | some _ => none)
      some { schema_version := sv, app := app, wine := wine, prefix_ := pm,
             executables := exes, install := inst, excluded_patterns := pats }
  | _ => none

theorem decodeStrList_map_jstr : ∀ l : List Str, decodeStrList (l.map JVal.jstr) = some l := by
  intro l
  induction l with
  | nil => rfl
  | cons a as ih => simp [decodeStrList, asStr, ih]

theorem asOptStr_encOptStr (o : Option Str) : asOptStr (encOptStr o) = some o := by
  cases o <;> rfl

theorem asWineMode_encWineMode (m : WineMode) : asWineMode (encWineMode m) = some m := by
  cases m <;> rfl

theorem optBind_some {α β : Type} (a : α) (f : α → Option β) :
    Option.bind (some a) f = f a := rfl

theorem executable_roundtrip (e : Executable) :
    Executable.fromJson (Executable.toJson e) = some e := by
  rcases e with ⟨i, n, p, cmd, a, w, ic, d, wm, cde, cats⟩
  have step : Executable.fromJson (Executable.toJson
        ⟨i, n, p, cmd, a, w, ic, d, wm, cde, cats⟩)
      = Option.bind (asOptStr (encOptStr cmd)) (fun cmd' =>
        Option.bind (asOptStr (encOptStr w)) (fun w' =>
        Option.bind (asOptStr (encOptStr ic)) (fun ic' =>
        Option.bind (asOptStr (encOptStr d)) (fun d' =>
        Option.bind (asOptStr (encOptStr wm)) (fun wm' =>
        Option.bind (decodeStrList (cats.map JVal.jstr)) (fun cats' =>
          some ⟨i, n, p, cmd', a, w', ic', d', wm', cde, cats'⟩)))))) := rfl
  rw [step]
  simp only [asOptStr_encOptStr, decodeStrList_map_jstr, optBind_some]

theorem decodeExeList_map_toJson :
    ∀ l : List Executable, decodeExeList (l.map Executable.toJson) = some l := by
  intro l
  induction l with
  | nil => rfl
  | cons e es ih => simp [decodeExeList, executable_roundtrip, ih]

theorem wineConfig_roundtrip (w : WineConfig) :
    WineConfig.fromJson (WineConfig.toJson w) = some w := by
  rcases w with ⟨m, mv, bp⟩
  have step : WineConfig.fromJson (WineConfig.toJson ⟨m, mv, bp⟩)
      = Option.bind (asWineMode (encWineMode m)) (fun m' =>
        Option.bind (asOptStr (encOptStr mv)) (fun mv' =>
        Option.bind (asOptStr (encOptStr bp)) (fun bp' =>
          some ⟨m', mv', bp'⟩))) := rfl
  rw [step]
  simp only [asOptStr_encOptStr, asWineMode_encWineMode, optBind_some]

theorem prefixMetadata_roundtrip (p : PrefixMetadata) :
    PrefixMetadata.fromJson (PrefixMetadata.toJson p) = some p := by
  rcases p with ⟨ou, op, nu, ow, hd, hv, ar⟩
  have step : PrefixMetadata.fromJson (PrefixMetadata.toJson
        ⟨ou, op, nu, ow, hd, hv, ar⟩)
      = Option.bind (asOptStr (encOptStr ow)) (fun ow' =>
          some ⟨ou, op, nu, ow', hd, hv, ar⟩) := rfl
  rw [step]
  simp only [asOptStr_encOptStr, optBind_some]

theorem installConfig_roundtrip (i : InstallConfig) :
    InstallConfig.fromJson (InstallConfig.toJson i) = some i := by
  rcases i with ⟨sp, up, uo⟩
  rfl

theorem appMetadata_roundtrip (a : AppMetadata) :
    AppMetadata.fromJson (AppMetadata.toJson a) = some a := by
  rcases a with ⟨n, dn, v, d, m, h, l⟩
  have step : AppMetadata.fromJson (AppMetadata.toJson ⟨n, dn, v, d, m, h, l⟩)
      = Option.bind (asOptStr (encOptStr m)) (fun m' =>
        Option.bind (asOptStr (encOptStr h)) (fun h' =>
          some ⟨n, dn, v, d, m', h', l⟩)) := rfl
  rw [step]
  simp only [asOptStr_encOptStr, optBind_some]

/-- C9: manifest serialization round-trips — validating the serialized
document of any `PackageSpec` yields the same `PackageSpec`, executables
list order and all fields included. -/
theorem c9_manifest_roundtrip :
    ∀ s : PackageSpec, PackageSpec.fromJson (PackageSpec.toJson s) = some s := by
  intro s
  rcases s with ⟨sv, app, wine, pm, exes, inst, pats⟩
  have step : PackageSpec.fromJson (PackageSpec.toJson
        ⟨sv, app, wine, pm, exes, inst, pats⟩)
      = Option.bind (AppMetadata.fromJson (AppMetadata.toJson app)) (fun app' =>
        Option.bind (WineConfig.fromJson (WineConfig.toJson wine)) (fun wine' =>
        Option.bind (PrefixMetadata.fromJson (PrefixMetadata.toJson pm)) (fun pm' =>
        Option.bind (decodeExeList (exes.map Executable.toJson)) (fun exes' =>
        Option.bind (InstallConfig.fromJson (InstallConfig.toJson inst)) (fun inst' =>
        Option.bind (decodeStrList (pats.map JVal.jstr)) (fun pats' =>
          some ⟨sv, app', wine', pm', exes', inst', pats'⟩)))))) := rfl
  rw [step]
  simp only [appMetadata_roundtrip, wineConfig_roundtrip, prefixMetadata_roundtrip,
    installConfig_roundtrip, decodeExeList_map_toJson, decodeStrList_map_jstr,
    optBind_some]
